import Mathlib

/-!
# Verification of the conversation store and response-code extractor

A shallow embedding, in Lean 4, of the persistent conversation memory store
(`server.js`: `saveToMemory`, `getMemoryContext`, `saveConversations`,
`acquireLock`/`releaseLock`) and of the LLM-response code-extraction pipeline
of the `/api/fix-and-commit` handler (`src/unnamed/part_001`, lines 2258-2405).

Conventions of the embedding:
* JavaScript strings handled by the extractor are modelled as `List Char`
  (`Chars`); the JS `String.prototype.includes`, `trim`, `toLowerCase`,
  `substring` and the concrete regular expressions of the handler are
  modelled by explicit recursive functions on `Chars`.
* Timestamps (`Date.now()`, `new Date().toISOString()`) are modelled as `Nat`
  milliseconds; the store's JSON file on disk is modelled by `DiskFile`:
  `absent` (no file), `malformed` (present, `JSON.parse` throws), or
  `valid d` (present and parsing to a current-format document `d`).
  Serialising a document and writing it always yields a parsable file,
  so a completed write is `DiskFile.valid`.
* `JSON.parse`/`JSON.stringify` of the candidate fragments of the JSON-repair
  fallback are abstracted as an oracle `tryJson : Chars → Option Chars`
  (clean-up + validation + re-serialisation; `none` models a parse failure);
  every theorem below quantifies over this oracle.
* File-system writes are modelled as the ordered list of `(path, content)`
  pairs the handler passes to `fs.writeFileSync` (writes always succeed;
  per-file `try/catch` around a write only guards real I/O faults).
-/

namespace DecideApp

abbrev Chars := List Char

/-- Is `pat` a prefix of `s`? (Boolean, by direct recursion.) -/
def isPrefixL : Chars → Chars → Bool
  | [], _ => true
  | _ :: _, [] => false
  | a :: as, b :: bs => a == b && isPrefixL as bs

/-- First index at or after the start of `s` where `pat` occurs (JS
`String.prototype.indexOf`, counting from `i`). -/
def findSubAux (pat : Chars) : Chars → Nat → Option Nat
  | [], i => if isPrefixL pat [] then some i else none
  | c :: rest, i =>
      if isPrefixL pat (c :: rest) then some i else findSubAux pat rest (i + 1)

/-- First index where `pat` occurs in `s`. -/
def findSub (pat : Chars) (s : Chars) : Option Nat :=
  findSubAux pat s 0

/-- JS `s.includes(pat)`. -/
def containsS (s pat : Chars) : Bool :=
  (findSub pat s).isSome

/-- JS `s.toLowerCase()` (ASCII, which is all the source compares). -/
def lowerS (s : Chars) : Chars := s.map Char.toLower

/-- JS regex `\s` on the characters the source can meet. -/
def isWs (c : Char) : Bool :=
  c == ' ' || c == '\n' || c == '\t' || c == '\r' || c == '\x0b' || c == '\x0c'

/-- JS regex `\w`. -/
def isWordChar (c : Char) : Bool := c.isAlphanum || c == '_'

/-- JS `s.trim()`. -/
def trimS (s : Chars) : Chars :=
  ((s.dropWhile isWs).reverse.dropWhile isWs).reverse

/-- Strip trailing whitespace only (the trailing greedy `\s*` of a regex
group boundary). -/
def trimEndWs (s : Chars) : Chars :=
  (s.reverse.dropWhile isWs).reverse

end DecideApp

namespace DecideApp

/-! ## ConversationStore: `saveToMemory` / `getMemoryContext` (server.js) -/

/-- JS `String.prototype.substring(0, n)` (by code points). -/
def jsSubstring (s : String) (n : Nat) : String := ⟨s.data.take n⟩

/-- One element of the `conversations` array written by `saveToMemory`
(server.js:1201-1210).  The `metadata` argument at every call site of the
repository carries at most the fields modelled by `Metadata` below, so the
trailing object spread adds no further keys that the claims observe. -/
structure MemEntry where
  role : String
  content : String
  timestamp : Nat
  containsError : Bool
  errorType : Option String
  filesFixed : List String
  repoName : String
  deriving Repr, DecidableEq

/-- The memory-store document `saveToMemory` serialises
(server.js:1178, 1188-1192, 1220-1222). -/
structure MemoryDoc where
  conversations : List MemEntry
  lastUpdated : Nat
  totalConversations : Nat
  deriving Repr, DecidableEq

/-- The optional `metadata` argument of `saveToMemory`
(fields passed by the call sites: server.js:1521-1530). -/
structure Metadata where
  containsError : Option Bool := none
  errorType : Option String := none
  filesFixed : Option (List String) := none
  deriving Repr, DecidableEq

/-- The state of one backing file on disk: missing, present but unparsable
(`JSON.parse` throws), or present and parsing to a current-format document. -/
inductive DiskFile where
  | absent
  | malformed
  | valid (doc : MemoryDoc)
  deriving Repr, DecidableEq

/-- The fresh document `saveToMemory` starts from when the file is missing or
unparsable (server.js:1178, 1196). -/
def freshDoc (now : Nat) : MemoryDoc :=
  { conversations := [], lastUpdated := now, totalConversations := 0 }

/-- The document `saveToMemory` works on after its load phase
(server.js:1178-1198): an existing parsable file is taken as is, a missing or
unparsable one resets to the fresh document. -/
def loadForSave (disk : DiskFile) (now : Nat) : MemoryDoc :=
  match disk with
  | .valid d => d
  | _ => freshDoc now

/-- The cap on the `conversations` array (server.js:1216: keep last 100). -/
def memCap : Nat := 100

/-- The new entry built by `saveToMemory` (server.js:1201-1210); `content`
is truncated to 5000 code units before storing. -/
def mkEntry (repoName role content : String) (now : Nat) (md : Metadata) : MemEntry :=
  { role := role
    content := jsSubstring content 5000
    timestamp := now
    containsError := md.containsError.getD false
    errorType := md.errorType
    filesFixed := md.filesFixed.getD []
    repoName := repoName }

/-- `saveToMemory` (server.js:1173-1235): load (with reset on parse error),
push the new entry, keep the last `memCap` entries (`slice(-100)`), refresh
`lastUpdated`/`totalConversations`, serialise and write the file.  Returns the
new disk state and the document written. -/
def saveToMemory (disk : DiskFile) (repoName role content : String) (now : Nat)
    (md : Metadata) : DiskFile × MemoryDoc :=
  let d0 := loadForSave disk now
  let convs := d0.conversations ++ [mkEntry repoName role content now md]
  let kept := if convs.length > memCap then convs.drop (convs.length - memCap) else convs
  let d1 : MemoryDoc :=
    { conversations := kept, lastUpdated := now, totalConversations := kept.length }
  (.valid d1, d1)

/-- One `saveToMemory` call of a sequential run. -/
structure AppendCall where
  repoName : String
  role : String
  content : String
  now : Nat
  md : Metadata
  deriving Repr, DecidableEq

/-- The entry a call stores. -/
def entryOf (c : AppendCall) : MemEntry :=
  mkEntry c.repoName c.role c.content c.now c.md

/-- A sequence of sequential `saveToMemory` calls against one backing file. -/
def runAppends (disk : DiskFile) : List AppendCall → DiskFile
  | [] => disk
  | c :: cs =>
      runAppends (saveToMemory disk c.repoName c.role c.content c.now c.md).1 cs

/-- The last `n` elements of a list (JS `slice(-n)`). -/
def lastN (n : Nat) (l : List α) : List α := l.drop (l.length - n)

/-- The context object `getMemoryContext` returns (server.js:1096-1149).
The two early returns carry no `lastUpdated` key, modelled as `none`; on the
main path the JS `memoryData.lastUpdated || 'Unknown'` maps a falsy stored
value to the `'Unknown'` marker, modelled as `none` when the stored number
is `0`. -/
structure MemoryContext where
  conversations : List MemEntry
  projectContext : String
  errors : List MemEntry
  totalConversations : Nat
  lastUpdated : Option Nat
  deriving Repr, DecidableEq

/-- The empty context returned when the file is missing, unparsable, or any
other error is caught (server.js:1103, 1118, 1147). -/
def emptyContext : MemoryContext :=
  { conversations := [], projectContext := "", errors := [],
    totalConversations := 0, lastUpdated := none }

/-- The technology-keyword alternation of server.js:1128, in source order. -/
def techKeywords : List Chars :=
  ["react", "vue", "angular", "express", "django", "flask", "nextjs",
   "tailwind", "mongodb", "mysql", "postgres", "javascript", "python",
   "nodejs", "html", "css"].map String.data

/-- Does keyword `kw` match at the head of `s` with a trailing `\b`? -/
def kwAt (kw : Chars) (s : Chars) : Bool :=
  isPrefixL kw s &&
    (match s.drop kw.length with
     | [] => true
     | c :: _ => !isWordChar c)

/-- Global scan of `/\b(react|vue|...)\b/gi` over (lowercased) text:
at each word start try the alternatives in source order, continue after a
match.  `fuel` bounds the recursion by the text length. -/
def kwScanAux (text : Chars) (wordStart : Bool) (fuel : Nat) : List Chars :=
  match fuel, text with
  | 0, _ => []
  | _, [] => []
  | fuel + 1, c :: rest =>
      match (if wordStart then techKeywords.find? (fun kw => kwAt kw (c :: rest)) else none) with
      | some kw => kw :: kwScanAux ((c :: rest).drop kw.length) false fuel
      | none => kwScanAux rest (!isWordChar c) fuel

/-- JS `[...].join(' ')` over the stored contents. -/
def joinSpace : List String → Chars
  | [] => []
  | [x] => x.data
  | x :: xs => x.data ++ [' '] ++ joinSpace xs

/-- JS `[...new Set(l)]`: first occurrences, in order. -/
def dedupFirstAux : List Chars → List Chars → List Chars
  | [], _ => []
  | x :: xs, seen =>
      if seen.contains x then dedupFirstAux xs seen
      else x :: dedupFirstAux xs (x :: seen)

/-- JS `[...].join(', ')`. -/
def joinComma : List Chars → Chars
  | [] => []
  | [x] => x
  | x :: xs => x ++ (", ".data) ++ joinComma xs

/-- The `projectContext` string of server.js:1126-1132: keyword matches over
the joined conversation text (case-insensitive), deduplicated in first-match
order, or the fixed fallback sentence. -/
def projectContextOf (convs : List MemEntry) : String :=
  let text := lowerS (joinSpace (convs.map (·.content)))
  let kws := kwScanAux text true text.length
  match kws with
  | [] => "No specific technologies detected yet"
  | _ => ⟨"Technologies detected: ".data ++ joinComma (dedupFirstAux kws [])⟩

/-- `getMemoryContext` (server.js:1096-1149): a missing or unparsable file
yields the empty context (the parse error is caught and logged, never
re-thrown); a parsable file yields the last 10 conversations, the last 5
error-flagged ones, the keyword summary and the total count. -/
def getMemoryContext (disk : DiskFile) : MemoryContext :=
  match disk with
  | .absent => emptyContext
  | .malformed => emptyContext
  | .valid d =>
      { conversations := lastN 10 d.conversations
        projectContext := projectContextOf d.conversations
        errors := lastN 5 (d.conversations.filter (·.containsError))
        totalConversations := d.conversations.length
        lastUpdated := if d.lastUpdated = 0 then none else some d.lastUpdated }

/-! ## The advisory file-lock map (server.js:1152-1170) -/

/-- The `fileLocks` map: backing-file path to acquisition time (`Date.now()`). -/
abbrev LockMap := List (String × Nat)

/-- JS `fileLocks.get(p)` (as used through `has`/`get`). -/
def lookupLock (m : LockMap) (p : String) : Option Nat :=
  (m.find? (fun x => x.1 == p)).map (·.2)

/-- JS `fileLocks.set(p, t)`. -/
def setLock (m : LockMap) (p : String) (t : Nat) : LockMap :=
  (p, t) :: m.filter (fun x => x.1 != p)

/-- JS `fileLocks.delete(p)` (`releaseLock`, server.js:1168-1170). -/
def delLock (m : LockMap) (p : String) : LockMap :=
  m.filter (fun x => x.1 != p)

/-- The deferred stale-lock check `acquireLock` schedules
(server.js:1160-1165), executing at time `t` (a JS timer never fires before
its 30000 ms delay): if the lock is still present and older than 30000 ms it
is force-released, else nothing happens. -/
def staleTimerFire (m : LockMap) (p : String) (t : Nat) : LockMap :=
  match lookupLock m p with
  | some ts => if t - ts > 30000 then delLock m p else m
  | none => m

/-- One iteration of `acquireLock`'s poll loop (server.js:1155-1158) at time
`t`: if no lock is present the caller acquires it, else it keeps waiting. -/
def pollOnce (m : LockMap) (p : String) (t : Nat) : Option LockMap :=
  if lookupLock m p = none then some (setLock m p t) else none

/-- `saveToMemory`'s lock discipline (server.js:1176-1234): acquire, run the
read-modify-write inside `try` (`writeFails` models an exception thrown by
the write, which the `catch` only logs), and release the lock in `finally`
on both paths. -/
def saveToMemoryWithLock (m : LockMap) (p : String) (t : Nat) (disk : DiskFile)
    (repoName role content : String) (md : Metadata) (writeFails : Bool) :
    LockMap × DiskFile :=
  let mAcq := setLock m p t
  let disk' := if writeFails then disk else (saveToMemory disk repoName role content t md).1
  (delLock mAcq p, disk')

/-! ## File-system operation traces of the two persist routines -/

/-- A file-system operation of a persist routine. -/
inductive FsOp where
  | write (path data : String)
  | rename (src dst : String)
  deriving Repr, DecidableEq

/-- server.js:1305: the shared conversations store file (the `__dirname`
prefix common to every path is omitted throughout). -/
def conversationsFile : String := "conversations.json"

/-- The operations `saveConversations` performs (server.js:1345-1369):
write the serialized document `data` to a temp file, then rename it over the
target. -/
def saveConversationsOps (data : String) : List FsOp :=
  [.write (conversationsFile ++ ".tmp") data,
   .rename (conversationsFile ++ ".tmp") conversationsFile]

/-- The persist step of `saveToMemory` (server.js:1225-1226): a single direct
`fs.writeFile` of the serialized document to the backing file. -/
def saveToMemoryOps (memoryFile data : String) : List FsOp :=
  [.write memoryFile data]

/-- A trace persists `data` to `target` atomically by write-temp-then-rename. -/
def atomicReplace (target data : String) (ops : List FsOp) : Prop :=
  ∃ tmp, ops = [.write tmp data, .rename tmp target]

/-- Whether every stored message of a disk state respects the 5000-unit
content bound (vacuous for a missing or unparsable file). -/
def contentsBounded : DiskFile → Prop
  | .valid d => ∀ e ∈ d.conversations, e.content.length ≤ 5000
  | _ => True

/-- A concrete append call used by witnesses. -/
def callW : AppendCall :=
  { repoName := "owner/repo", role := "user", content := "hello", now := 0, md := {} }

end DecideApp

namespace DecideApp

/-! ## ResponseCodeExtractor: the `/api/fix-and-commit` file-application
pipeline (src/unnamed/part_001, lines 2258-2405) -/

/-- The literal of the section regex of part_001:2265. -/
def markerFTM : Chars := "FILES_TO_MODIFY:".data

/-- The entry-start literal of part_001:2270 (with its trailing space). -/
def markerFile : Chars := "- FILE: ".data

/-- The lookahead literal of the content group (no trailing space). -/
def markerFileLA : Chars := "- FILE:".data

/-- The content literal of part_001:2270 (with its trailing space). -/
def markerContent : Chars := "CONTENT: ".data

/-- A triple-backtick fence. -/
def fence3 : Chars := "```".data

/-- The tagged fence of the first JSON pattern (part_001:2352). -/
def tagJson : Chars := "```json".data

/-- The regex `FILES_TO_MODIFY:\s*([\s\S]*?)(?=\n\n|\x24)` of part_001:2265:
after the first marker, the greedy `\s*` swallows the maximal whitespace run,
then the lazy group runs to the first blank line (`\n\n`, not consumed) or to
the end of the text. -/
def filesSection (solution : Chars) : Option Chars :=
  match findSub markerFTM solution with
  | none => none
  | some i =>
      let rest := (solution.drop (i + markerFTM.length)).dropWhile isWs
      match findSub ("\n\n".data) rest with
      | none => some rest
      | some j => some (rest.take j)

/-- The split `([^\n]+)\s+CONTENT: ` after the `- FILE: ` literal, with the
regex engine's backtracking order: the greedy `[^\n]+` prefers the longest
path, so the split lands on the last `CONTENT: ` of the line that is preceded
by at least one whitespace character (`\s+` can only consume its maximal run,
since `CONTENT: ` starts with a non-space).  `u` is the suffix after
`- FILE: `; returns the path group and the suffix after `CONTENT: `. -/
def entrySplitAt (u : Chars) : Nat → Option (Chars × Chars)
  | 0 => none
  | k + 1 =>
      let v := u.drop (k + 1)
      let w := (v.takeWhile isWs).length
      if 0 < w && isPrefixL markerContent (v.drop w) then
        some (u.take (k + 1), v.drop (w + markerContent.length))
      else entrySplitAt u k

/-- Attempt the path/content split with path candidates ranging over the
(nonempty) prefixes of the current line, longest first. -/
def entrySplit (u : Chars) : Option (Chars × Chars) :=
  entrySplitAt u (u.takeWhile (fun c => c != '\n')).length

/-- All matches of `- FILE: ([^\n]+)\s+CONTENT: ([\s\S]*?)(?=- FILE:|\x24)`
with the `g` flag (part_001:2270): scan for the `- FILE: ` literal, attempt
the split; on failure rescan from the next character; on success the lazy
content group runs to the next `- FILE:` occurrence (left unconsumed, where
the next scan resumes) or to the end.  `fuel` bounds the recursion by the
section length. -/
def parseEntriesAux : Chars → Nat → List (Chars × Chars)
  | _, 0 => []
  | s, fuel + 1 =>
      match findSub markerFile s with
      | none => []
      | some i =>
          let u := s.drop (i + markerFile.length)
          match entrySplit u with
          | none => parseEntriesAux (s.drop (i + 1)) fuel
          | some (path, after) =>
              match findSub markerFileLA after with
              | none => [(path, after)]
              | some j => (path, after.take j) :: parseEntriesAux (after.drop j) fuel

/-- The matched directive entries of a files section. -/
def parseEntries (s : Chars) : List (Chars × Chars) :=
  parseEntriesAux s (s.length + 1)

/-- The writes of the explicit-directive stage (part_001:2264-2298): each
parsed entry whose (pre-trim) content group is nonempty (`filePath && content`
both truthy; the path group is nonempty by construction) is written to its
trimmed path with its trimmed content, in order. -/
def directiveWrites (solution : Chars) : List (Chars × Chars) :=
  match filesSection solution with
  | none => []
  | some sec =>
      (parseEntries sec).filterMap fun pc =>
        if pc.2.isEmpty then none else some (trimS pc.1, trimS pc.2)

/-- The matches of the backtick-fence block regex with the `g` flag
(part_001:2302): non-overlapping blocks, each running from a fence to the
earliest following fence, both fences included. -/
def extractBlocksAux : Chars → Nat → List Chars
  | _, 0 => []
  | s, fuel + 1 =>
      match findSub fence3 s with
      | none => []
      | some i =>
          let afterOpen := s.drop (i + 3)
          match findSub fence3 afterOpen with
          | none => []
          | some j =>
              ((s.drop i).take (j + 6)) :: extractBlocksAux (afterOpen.drop (j + 3)) fuel

/-- All fenced blocks of a solution text. -/
def extractBlocks (s : Chars) : List Chars :=
  extractBlocksAux s (s.length + 1)

/-- Global replacement of fence-plus-language-tag (a fence, a maximal `\w`
run, an optional newline) by the empty string — the first `replace` of
part_001:2305. -/
def stripFenceLang : Chars → Nat → Chars
  | s, 0 => s
  | s, fuel + 1 =>
      match findSub fence3 s with
      | none => s
      | some i =>
          let rest := (s.drop (i + 3)).dropWhile isWordChar
          let rest2 := match rest with
            | '\n' :: r => r
            | _ => rest
          s.take i ++ stripFenceLang rest2 fuel

/-- Global removal of any remaining bare fences — the second `replace` of
part_001:2305. -/
def removeFences : Chars → Nat → Chars
  | s, 0 => s
  | s, fuel + 1 =>
      match findSub fence3 s with
      | none => s
      | some i => s.take i ++ removeFences (s.drop (i + 3)) fuel

/-- part_001:2305: strip fence markers and language tags, then any remaining
fences, then trim. -/
def cleanBlock (b : Chars) : Chars :=
  trimS (removeFences (stripFenceLang b (b.length + 1)) (b.length + 1))

/-- The decimal digits of `n`, most significant first (`fuel` bounds the
recursion; `n + 1` iterations always suffice). -/
def natDigitsAux : Nat → Nat → List Nat
  | _, 0 => []
  | n, fuel + 1 => if n < 10 then [n] else natDigitsAux (n / 10) fuel ++ [n % 10]

/-- The decimal digits of `n`, most significant first. -/
def natDigits (n : Nat) : List Nat := natDigitsAux n (n + 1)

/-- A decimal digit as a character. -/
def digitChar : Nat → Char
  | 0 => '0' | 1 => '1' | 2 => '2' | 3 => '3' | 4 => '4'
  | 5 => '5' | 6 => '6' | 7 => '7' | 8 => '8' | _ => '9'

/-- JS number-to-string interpolation of a natural number. -/
def natChars (n : Nat) : Chars := (natDigits n).map digitChar

/-- The synthesized fallback name of part_001:2323 — the template
interpolates the index only when it is positive (`i > 0 ? i : ''`), so the
first synthesized name is `fix.js`, then `fix1.js`, `fix2.js`, ... -/
def fixName (i : Nat) : Chars :=
  "fix".data ++ (if 0 < i then natChars i else []) ++ ".js".data

/-- The per-block target inference of the fenced-block fallback
(part_001:2307-2325), clause by clause: a truthy caller-supplied `filePath`
short-circuits every heuristic (`let targetFile = filePath; if (!targetFile)`),
otherwise the if/else-if chain runs in source order.  `errorLC` is the
lowercased request error text; the CLI clause looks at the whole solution. -/
def inferTarget (errorLC filePath solution code : Chars) (i : Nat) : Option Chars :=
  if !filePath.isEmpty then some filePath
  else if containsS errorLC "vercel".data && containsS code "\x7b".data then
    some "vercel.json".data
  else if containsS code "app.listen".data || containsS code "express".data then
    some "server.js".data
  else if containsS code "<!DOCTYPE html".data || containsS code "<html".data then
    some "public/index.html".data
  else if containsS code "#!/usr/bin/env node".data || containsS solution "CLI".data then
    some "cli.js".data
  else if containsS code "body \x7b".data || containsS code ".container \x7b".data then
    some "public/style.css".data
  else if containsS code "\x22scripts\x22".data || containsS code "\x22dependencies\x22".data then
    some "package.json".data
  else if containsS code "module.exports".data || containsS code "function".data then
    some (fixName i)
  else none

/-- The loop over extracted blocks (part_001:2304-2344): clean each block,
infer a target, and write when both target and cleaned code are truthy; the
loop never breaks, so every block is processed. -/
def fencedLoop (errorLC filePath solution : Chars) : Nat → List Chars → List (Chars × Chars)
  | _, [] => []
  | i, b :: rest =>
      let code := cleanBlock b
      let tail := fencedLoop errorLC filePath solution (i + 1) rest
      match inferTarget errorLC filePath solution code i with
      | some t => if code.isEmpty then tail else (t, code) :: tail
      | none => tail

/-- First match of the tagged-fence JSON pattern (part_001:2352): the first
`json`-tagged fence with a closing fence after it; the group is the text
between, stripped of leading and trailing whitespace by the greedy `\s*`
boundaries. -/
def jsonPat1Aux : Chars → Nat → Option Chars
  | _, 0 => none
  | s, fuel + 1 =>
      match findSub tagJson s with
      | none => none
      | some i =>
          let body := (s.drop (i + tagJson.length)).dropWhile isWs
          match findSub fence3 body with
          | none => jsonPat1Aux (s.drop (i + 1)) fuel
          | some j => some (trimEndWs (body.take j))

/-- part_001:2352, first pattern. -/
def jsonPat1 (s : Chars) : Option Chars := jsonPat1Aux s (s.length + 1)

/-- part_001:2353, second pattern: like the first with a bare opening fence. -/
def jsonPat2 (s : Chars) : Option Chars :=
  match findSub fence3 s with
  | none => none
  | some i =>
      let body := (s.drop (i + 3)).dropWhile isWs
      match findSub fence3 body with
      | none => none
      | some j => some (trimEndWs (body.take j))

/-- part_001:2354, third pattern: the first open brace up to the earliest
close brace after it (the whole match, braces included, is used since the
pattern has no group). -/
def jsonPat3 (s : Chars) : Option Chars :=
  match findSub ['\x7b'] s with
  | none => none
  | some i =>
      match findSub ['\x7d'] (s.drop (i + 1)) with
      | none => none
      | some j => some ((s.drop i).take (j + 2))

/-- The well-known target of the JSON-repair stage (part_001:2374-2379). -/
def jsonFileName (errorLC : Chars) : Chars :=
  if containsS errorLC "package".data then "package.json".data
  else if containsS errorLC "tsconfig".data then "tsconfig.json".data
  else "vercel.json".data

/-- The JSON-repair fallback (part_001:2349-2393): candidate fragments are
tried in pattern order; `tryJson` abstracts the comment/trailing-comma
clean-up, the `JSON.parse` validation and the pretty re-serialisation
(`none` models a parse failure, which only moves the loop to the next
pattern); the first success is written and the loop breaks.  (The JS
`jsonMatch[1] || jsonMatch[0]` falls back to the whole match when a fence
pair encloses an empty group; that quirk only changes which fragment the
abstracted parser sees, never whether a fragment exists.) -/
def jsonStage (tryJson : Chars → Option Chars) (errorLC s : Chars) :
    Option (Chars × Chars) :=
  let cands := (jsonPat1 s).toList ++ (jsonPat2 s).toList ++ (jsonPat3 s).toList
  (cands.filterMap (fun c => (tryJson c).map (fun out => (jsonFileName errorLC, out)))).head?

/-- What the `/api/fix-and-commit` response exposes of the application phase
(part_001:2396-2405), plus the ordered list of file writes performed. -/
structure FixOutcome where
  writes : List (Chars × Chars)
  filesChanged : List Chars
  applied : Bool
  solution : Chars
  deriving Repr, DecidableEq

/-- The file-application phase of the handler (part_001:2258-2405).
`autoApply` is `action === 'auto_fix' || action === 'fix_and_apply'`; when it
is false nothing is extracted.  Stage 2 runs only when stage 1 applied
nothing and the solution has a fence; stage 3 runs only when neither applied
anything and the (lowercased) error text mentions json/vercel/parse.  The
raw solution is always echoed back. -/
def fixAndCommitApply (tryJson : Chars → Option Chars)
    (error filePath solution : Chars) (autoApply : Bool) : FixOutcome :=
  if !autoApply then
    { writes := [], filesChanged := [], applied := false, solution := solution }
  else
    let errorLC := lowerS error
    let w1 := directiveWrites solution
    let a1 := !w1.isEmpty
    let w2 := if !a1 && containsS solution fence3 then
        fencedLoop errorLC filePath solution 0 (extractBlocks solution)
      else []
    let a2 := a1 || !w2.isEmpty
    let w3 := if !a2 && (containsS errorLC "json".data || containsS errorLC "vercel".data
          || containsS errorLC "parse".data) then
        (jsonStage tryJson errorLC solution).toList
      else []
    let ws := w1 ++ w2 ++ w3
    { writes := ws, filesChanged := ws.map Prod.fst,
      applied := a1 || !w2.isEmpty || !w3.isEmpty, solution := solution }

/-- The content on disk at `p` after the handler's writes (each write
replaces the whole file, so the last write wins). -/
def finalContent (r : FixOutcome) (p : Chars) : Option Chars :=
  ((r.writes.filter (fun w => w.1 == p)).getLast?).map (·.2)

/-- Target inference as claim C2 words it (spec §4.2 step 2): HTML first,
then server bootstrap, then CSS, then package keys; the caller-supplied path
only as a fallback; else a synthesized `fix<N>.js` with the zero-based index
always shown. -/
def inferTargetClaim (filePath code : Chars) (n : Nat) : Chars :=
  if containsS code "<!DOCTYPE html".data || containsS code "<html".data then
    "public/index.html".data
  else if containsS code "app.listen".data || containsS code "express".data then
    "server.js".data
  else if containsS code "body \x7b".data || containsS code ".container \x7b".data then
    "public/style.css".data
  else if containsS code "\x22scripts\x22".data || containsS code "\x22dependencies\x22".data then
    "package.json".data
  else if !filePath.isEmpty then filePath
  else "fix".data ++ natChars n ++ ".js".data

/-- First-match semantics over an ordered condition-to-target rule table:
the target of the first rule whose condition holds, if any. -/
def firstMatch : List (Bool × Chars) → Option Chars
  | [] => none
  | (c, t) :: rest => if c then some t else firstMatch rest

/-- The ordered rule table the fallback actually implements. -/
def sourceRules (errorLC filePath solution code : Chars) (i : Nat) :
    List (Bool × Chars) :=
  [ (!filePath.isEmpty, filePath),
    (containsS errorLC "vercel".data && containsS code "\x7b".data, "vercel.json".data),
    (containsS code "app.listen".data || containsS code "express".data, "server.js".data),
    (containsS code "<!DOCTYPE html".data || containsS code "<html".data,
      "public/index.html".data),
    (containsS code "#!/usr/bin/env node".data || containsS solution "CLI".data,
      "cli.js".data),
    (containsS code "body \x7b".data || containsS code ".container \x7b".data,
      "public/style.css".data),
    (containsS code "\x22scripts\x22".data || containsS code "\x22dependencies\x22".data,
      "package.json".data),
    (containsS code "module.exports".data || containsS code "function".data, fixName i) ]

/-- A cleaned block that is nonempty and only matches the generic-JavaScript
clause of the fallback chain. -/
def jsOnlyBlock (b : Chars) : Bool :=
  let code := cleanBlock b
  (!code.isEmpty)
  && (containsS code "module.exports".data || containsS code "function".data)
  && !(containsS code "app.listen".data) && !(containsS code "express".data)
  && !(containsS code "<!DOCTYPE html".data) && !(containsS code "<html".data)
  && !(containsS code "#!/usr/bin/env node".data)
  && !(containsS code "body \x7b".data) && !(containsS code ".container \x7b".data)
  && !(containsS code "\x22scripts\x22".data) && !(containsS code "\x22dependencies\x22".data)

/-- No two consecutive dots occur. -/
def ddFree : Chars → Bool
  | [] => true
  | [_] => true
  | a :: b :: t => !(a == '.' && b == '.') && ddFree (b :: t)

/-! ### Concrete inputs used by counterexamples and witnesses -/

/-- A solution with one explicit directive entry for `server.js` and one
fenced block that would heuristically also target `server.js`. -/
def solDirective : Chars :=
  "FILES_TO_MODIFY:\n- FILE: server.js\n  CONTENT: okcode\n\n```\nexpress yes\n```".data

/-- A solution with three unlabeled fenced blocks, none matching the
HTML/CSS/server/package heuristics. -/
def solFences : Chars :=
  "```\nfunction a\n```\n\n```\nfunction b\n```\n\n```\nfunction c\n```".data

/-- The three blocks of `solFences` as the block regex matches them. -/
def blockA : Chars := "```\nfunction a\n```".data

/-- Second block of `solFences`. -/
def blockB : Chars := "```\nfunction b\n```".data

/-- Third block of `solFences`. -/
def blockC : Chars := "```\nfunction c\n```".data

/-- A solution whose explicit directive entry carries a parent-directory
traversal path. -/
def solTraversal : Chars :=
  "FILES_TO_MODIFY:\n- FILE: ../../evil.js\n  CONTENT: pwned".data

/-- A plain-prose solution: no fences, no directives, no braces. -/
def solProse : Chars :=
  "this is plain prose with no structure at all.".data

/-- A code block matching both the HTML and the web-server heuristics. -/
def codeHtmlExpress : Chars := "<html> express".data

/-! ### Helper lemmas about `lastN` and `saveToMemory` -/

theorem saveToMemory_kept (disk : DiskFile) (repoName role content : String)
    (now : Nat) (md : Metadata) :
    (saveToMemory disk repoName role content now md).2.conversations =
      lastN memCap
        ((loadForSave disk now).conversations ++ [mkEntry repoName role content now md]) := by
  dsimp only [saveToMemory]
  split
  · rfl
  next h =>
    unfold lastN
    rw [Nat.sub_eq_zero_of_le (Nat.le_of_not_lt h), List.drop_zero]

theorem lastN_lastN_append (n : Nat) (xs ys : List α) :
    lastN n (lastN n xs ++ ys) = lastN n (xs ++ ys) := by
  unfold lastN
  rw [List.drop_append_eq_append_drop, List.drop_append_eq_append_drop,
    List.drop_drop, List.length_drop, List.length_append, List.length_append,
    List.length_drop]
  congr 1
  · congr 1
    omega
  · congr 1
    omega

theorem lastN_append_of_le (n : Nat) (init l : List α) (h : n ≤ l.length) :
    lastN n (init ++ l) = lastN n l := by
  unfold lastN
  rw [List.drop_append_eq_append_drop, List.length_append]
  rw [List.drop_eq_nil_of_le (by omega), List.nil_append]
  congr 1
  omega

theorem runAppends_valid (calls : List AppendCall) :
    ∀ d : MemoryDoc, calls ≠ [] →
      ∃ d' : MemoryDoc,
        runAppends (.valid d) calls = .valid d' ∧
        d'.conversations = lastN memCap (d.conversations ++ calls.map entryOf) := by
  induction calls with
  | nil => intro d hne; exact absurd rfl hne
  | cons c cs ih =>
      intro d _
      have hstep := saveToMemory_kept (.valid d) c.repoName c.role c.content c.now c.md
      by_cases hcs : cs = []
      · subst hcs
        refine ⟨(saveToMemory (.valid d) c.repoName c.role c.content c.now c.md).2, rfl, ?_⟩
        rw [hstep]
        simp [loadForSave, entryOf]
      · obtain ⟨d', hrun, hconv⟩ :=
          ih (saveToMemory (.valid d) c.repoName c.role c.content c.now c.md).2 hcs
        refine ⟨d', ?_, ?_⟩
        · simpa [runAppends, saveToMemory] using hrun
        · rw [hconv, hstep]
          simp only [loadForSave]
          rw [lastN_lastN_append]
          simp [entryOf, List.map_cons]

end DecideApp

namespace DecideApp

/-! ### Lock-map lemmas -/

theorem lookupLock_delLock (m : LockMap) (p : String) :
    lookupLock (delLock m p) p = none := by
  induction m with
  | nil => rfl
  | cons a t ih =>
      by_cases h : a.1 = p
      · have hstep : delLock (a :: t) p = delLock t p := by
          simp [delLock, List.filter_cons, h]
        rw [hstep]
        exact ih
      · simp [delLock, lookupLock, List.filter_cons, List.find?_cons, h]

theorem saveToMemory_fst (disk : DiskFile) (repoName role content : String)
    (now : Nat) (md : Metadata) :
    (saveToMemory disk repoName role content now md).1 =
      .valid (saveToMemory disk repoName role content now md).2 := rfl

/-! ### Claim theorems -/

/-- C1: for every key, every starting disk state and every sequence of more
than `memCap` (= 100) sequential `saveToMemory` calls, the persisted record's
conversations array has length exactly `memCap` and its elements are exactly
the entries of the most recent `memCap` calls, in their original append order
(oldest dropped first). -/
theorem C1_cap_trim (disk : DiskFile) (calls : List AppendCall) (h : memCap < calls.length) :
    ∃ d : MemoryDoc,
      runAppends disk calls = .valid d ∧
      d.conversations = (calls.map entryOf).drop (calls.length - memCap) ∧
      d.conversations.length = memCap := by
  match calls, h with
  | c :: cs, h =>
    have hcs : cs ≠ [] := by
      intro hc
      subst hc
      simp [memCap] at h
    have hstep := saveToMemory_kept disk c.repoName c.role c.content c.now c.md
    obtain ⟨d', hrun, hconv⟩ :=
      runAppends_valid cs (saveToMemory disk c.repoName c.role c.content c.now c.md).2 hcs
    have hconv' : d'.conversations = lastN memCap ((c :: cs).map entryOf) := by
      rw [hconv, hstep, lastN_lastN_append, List.append_assoc, lastN_append_of_le]
      · simp [List.map_cons, entryOf]
      · simp only [List.length_append, List.length_singleton, List.length_map]
        have h2 : memCap < cs.length + 1 := by simpa using h
        omega
    refine ⟨d', ?_, ?_, ?_⟩
    · show runAppends (saveToMemory disk c.repoName c.role c.content c.now c.md).1 cs
          = .valid d'
      rw [saveToMemory_fst]
      exact hrun
    · rw [hconv']
      simp [lastN]
    · rw [hconv']
      simp only [lastN, List.length_drop, List.length_map, List.length_cons]
      have h2 : memCap < cs.length + 1 := by simpa using h
      omega

/-- C1 witness: 101 sequential appends against an initially absent file. -/
theorem C1_cap_trim_witness :
    memCap < (List.replicate 101 callW).length ∧
    (∃ d : MemoryDoc,
      runAppends .absent (List.replicate 101 callW) = .valid d ∧
      d.conversations =
        ((List.replicate 101 callW).map entryOf).drop
          ((List.replicate 101 callW).length - memCap) ∧
      d.conversations.length = memCap) :=
  ⟨by decide, C1_cap_trim .absent _ (by decide)⟩

/-- C6: loading from an absent or unparsable backing file returns the empty
record without raising, and a subsequent append succeeds and leaves a
well-formed (parsable) document on disk. -/
theorem C6_selfheal (disk : DiskFile) (repoName role content : String) (now : Nat)
    (md : Metadata) (h : disk = .absent ∨ disk = .malformed) :
    getMemoryContext disk = emptyContext ∧
    ∃ d : MemoryDoc, saveToMemory disk repoName role content now md = (.valid d, d) := by
  rcases h with h | h <;> subst h <;> exact ⟨rfl, ⟨_, rfl⟩⟩

/-- C6 witness: a malformed (truncated / non-JSON) store document. -/
theorem C6_selfheal_witness :
    (DiskFile.malformed = .absent ∨ DiskFile.malformed = .malformed) ∧
    (getMemoryContext .malformed = emptyContext ∧
     ∃ d : MemoryDoc, saveToMemory .malformed "owner/repo" "user" "hi" 7 {} = (.valid d, d)) :=
  ⟨Or.inr rfl, C6_selfheal .malformed "owner/repo" "user" "hi" 7 {} (Or.inr rfl)⟩

/-- C7 counterexample: `saveToMemory` persists with a single direct write —
its trace is not of the write-temp-then-rename shape, so not every
persistence of a store document is atomic in that sense. -/
theorem C7_counterexample :
    ¬ atomicReplace "memory.json" "data" (saveToMemoryOps "memory.json" "data") := by
  rintro ⟨tmp, h⟩
  simp [saveToMemoryOps] at h

/-- C7 amended: `saveConversations` (and only it) persists atomically by
writing the serialized document to a temporary file and renaming it over the
target. -/
theorem C7_amended (data : String) :
    atomicReplace conversationsFile data (saveConversationsOps data) :=
  ⟨conversationsFile ++ ".tmp", rfl⟩

/-- C8: a lock held past the 30-second stale ceiling is force-released by the
deferred check, a pending append's next poll then acquires the lock, and the
locked read-modify-write always ends with the lock released (the release is
in `finally`, so even a write that throws cannot wedge the store). -/
theorem C8_stale_release (m : LockMap) (p : String) (ts t t2 : Nat) (disk : DiskFile)
    (repoName role content : String) (md : Metadata) (writeFails : Bool)
    (hheld : lookupLock m p = some ts) (hlate : ts + 30000 < t) :
    lookupLock (staleTimerFire m p t) p = none ∧
    pollOnce (staleTimerFire m p t) p t2 = some (setLock (staleTimerFire m p t) p t2) ∧
    lookupLock
      (saveToMemoryWithLock (staleTimerFire m p t) p t2 disk repoName role content md
        writeFails).1 p = none := by
  have h1 : staleTimerFire m p t = delLock m p := by
    unfold staleTimerFire
    rw [hheld]
    have hgt : t - ts > 30000 := by omega
    simp [hgt]
  have h2 : lookupLock (staleTimerFire m p t) p = none := by
    rw [h1]
    exact lookupLock_delLock m p
  refine ⟨h2, ?_, ?_⟩
  · unfold pollOnce
    rw [h2]
    simp
  · exact lookupLock_delLock _ p

/-- C8 witness: a lock acquired at t=0, the stale check firing at t=30001,
a pending append polling at t=30002 whose write then throws. -/
theorem C8_stale_release_witness :
    lookupLock [("memory.json", 0)] "memory.json" = some 0 ∧
    (0 : Nat) + 30000 < 30001 ∧
    (lookupLock (staleTimerFire [("memory.json", 0)] "memory.json" 30001) "memory.json" = none ∧
     pollOnce (staleTimerFire [("memory.json", 0)] "memory.json" 30001) "memory.json" 30002 =
       some (setLock (staleTimerFire [("memory.json", 0)] "memory.json" 30001) "memory.json" 30002) ∧
     lookupLock
       (saveToMemoryWithLock (staleTimerFire [("memory.json", 0)] "memory.json" 30001)
         "memory.json" 30002 .absent "owner/repo" "user" "x" {} true).1 "memory.json" = none) :=
  ⟨by decide, by decide,
   C8_stale_release [("memory.json", 0)] "memory.json" 0 30001 30002 .absent
     "owner/repo" "user" "x" {} true (by decide) (by decide)⟩

/-- C10: after every successful `saveToMemory`, the persisted document has
`totalConversations` equal to the length of its conversations array, and —
provided every previously stored message already respected the bound — every
stored message content has length at most 5000 (the new entry is truncated
to 5000 before storing). -/
theorem C10_invariant (disk : DiskFile) (repoName role content : String) (now : Nat)
    (md : Metadata) (h : contentsBounded disk) :
    (saveToMemory disk repoName role content now md).1 =
      .valid (saveToMemory disk repoName role content now md).2 ∧
    (saveToMemory disk repoName role content now md).2.totalConversations =
      (saveToMemory disk repoName role content now md).2.conversations.length ∧
    ∀ e ∈ (saveToMemory disk repoName role content now md).2.conversations,
      e.content.length ≤ 5000 := by
  refine ⟨rfl, rfl, ?_⟩
  intro e he
  rw [saveToMemory_kept] at he
  unfold lastN at he
  have he' := List.mem_of_mem_drop he
  rcases List.mem_append.mp he' with h1 | h2
  · cases disk with
    | valid d => exact h e h1
    | absent => simp [loadForSave, freshDoc] at h1
    | malformed => simp [loadForSave, freshDoc] at h1
  · have he2 : e = mkEntry repoName role content now md := by simpa using h2
    subst he2
    show (jsSubstring content 5000).length ≤ 5000
    unfold jsSubstring
    show (content.data.take 5000).length ≤ 5000
    simp

/-- C10 witness: an append against an absent file (bound vacuously true). -/
theorem C10_invariant_witness :
    contentsBounded .absent ∧
    ((saveToMemory .absent "owner/repo" "user" "hi" 5 {}).1 =
       .valid (saveToMemory .absent "owner/repo" "user" "hi" 5 {}).2 ∧
     (saveToMemory .absent "owner/repo" "user" "hi" 5 {}).2.totalConversations =
       (saveToMemory .absent "owner/repo" "user" "hi" 5 {}).2.conversations.length ∧
     ∀ e ∈ (saveToMemory .absent "owner/repo" "user" "hi" 5 {}).2.conversations,
       e.content.length ≤ 5000) :=
  ⟨trivial, C10_invariant .absent "owner/repo" "user" "hi" 5 {} trivial⟩

end DecideApp

namespace DecideApp

/-! ### String-scanning lemmas -/

theorem isPrefixL_of_append (p r : Chars) :
    ∀ u : Chars, isPrefixL (p ++ r) u = true → isPrefixL p u = true := by
  induction p with
  | nil => intro u _; rfl
  | cons a as ih =>
      intro u h
      cases u with
      | nil => simp [isPrefixL] at h
      | cons b bs =>
          rw [List.cons_append] at h
          simp only [isPrefixL, Bool.and_eq_true] at h ⊢
          exact ⟨h.1, ih bs h.2⟩

theorem findSubAux_append_none (p r : Chars) :
    ∀ (s : Chars) (i : Nat), findSubAux p s i = none → findSubAux (p ++ r) s i = none := by
  intro s
  induction s with
  | nil =>
      intro i h
      unfold findSubAux at h ⊢
      split at h
      · exact absurd h (by simp)
      next hp =>
        split
        next hq => exact absurd (isPrefixL_of_append p r [] hq) hp
        · rfl
  | cons c t ih =>
      intro i h
      unfold findSubAux at h ⊢
      split at h
      · exact absurd h (by simp)
      next hp =>
        split
        next hq => exact absurd (isPrefixL_of_append p r (c :: t) hq) hp
        · exact ih (i + 1) h

theorem findSub_eq_none (p s : Chars) (h : containsS s p = false) :
    findSub p s = none := by
  unfold containsS at h
  cases hf : findSub p s
  · rfl
  · rw [hf] at h
    simp at h

theorem findSub_append_none (p r s : Chars) (h : findSub p s = none) :
    findSub (p ++ r) s = none :=
  findSubAux_append_none p r s 0 h

/-! ### Digit and dot-free lemmas for the synthesized fix names -/

theorem natDigitsAux_lt (fuel : Nat) : ∀ n, ∀ d ∈ natDigitsAux n fuel, d < 10 := by
  induction fuel with
  | zero =>
      intro n d hd
      simp [natDigitsAux] at hd
  | succ fuel ih =>
      intro n d hd
      unfold natDigitsAux at hd
      split at hd
      next h =>
        simp at hd
        omega
      next h =>
        rcases List.mem_append.mp hd with h1 | h2
        · exact ih (n / 10) d h1
        · simp at h2
          subst h2
          exact Nat.mod_lt _ (by omega)

theorem natDigits_lt (n : Nat) : ∀ d ∈ natDigits n, d < 10 :=
  natDigitsAux_lt (n + 1) n

theorem digitChar_ne_dot (d : Nat) : (digitChar d == '.') = false := by
  rcases d with _ | _ | _ | _ | _ | _ | _ | _ | _ | d <;> rfl

theorem natChars_no_dot (n : Nat) : ∀ c ∈ natChars n, (c == '.') = false := by
  intro c hc
  unfold natChars at hc
  rcases List.mem_map.mp hc with ⟨d, _, rfl⟩
  exact digitChar_ne_dot d

theorem charBeq_comm (a b : Char) : (a == b) = (b == a) := by
  by_cases h : a = b
  · subst h
    rfl
  · have h1 : (a == b) = false := by simpa using h
    have h2 : (b == a) = false := by simpa using Ne.symm h
    rw [h1, h2]

theorem ddFree_cons_of (c : Char) (rest : Chars) (hc : (c == '.') = false) :
    ddFree (c :: rest) = ddFree rest := by
  cases rest with
  | nil => rfl
  | cons b t => simp [ddFree, hc]

theorem ddFree_append_dotjs (m : Chars) (h : ∀ c ∈ m, (c == '.') = false) :
    ddFree (m ++ ('.' :: 'j' :: 's' :: [])) = true := by
  induction m with
  | nil => rfl
  | cons a m ih =>
      have ha := h a (by simp)
      cases m with
      | nil => simp [ddFree, ha]
      | cons b m' =>
          have hrest : ∀ c ∈ b :: m', (c == '.') = false := fun c hc => h c (by simp [hc])
          have htail := ih hrest
          simp only [List.cons_append] at htail ⊢
          rw [ddFree, ha]
          simpa using htail

theorem findSubAux_dd_none (l : Chars) (h : ddFree l = true) :
    ∀ i, findSubAux ('.' :: '.' :: []) l i = none := by
  induction l with
  | nil => intro i; rfl
  | cons c t ih =>
      intro i
      cases t with
      | nil =>
          have hpre : isPrefixL ('.' :: '.' :: []) (c :: []) = false := by
            simp [isPrefixL]
          unfold findSubAux
          rw [hpre]
          simp only [Bool.false_eq_true, if_false]
          rfl
      | cons b t' =>
          rw [ddFree, Bool.and_eq_true] at h
          obtain ⟨h1, h2⟩ := h
          have hnd : (c == '.' && b == '.') = false := by
            cases hcb : (c == '.' && b == '.')
            · rfl
            · rw [hcb] at h1
              exact absurd h1 (by simp)
          have htail := ih h2
          have hpre : isPrefixL ('.' :: '.' :: []) (c :: b :: t') = false := by
            show (('.' == c) && (('.' == b) && isPrefixL [] t')) = false
            rw [show isPrefixL [] t' = true from rfl, Bool.and_true,
              charBeq_comm '.' c, charBeq_comm '.' b]
            exact hnd
          unfold findSubAux
          rw [hpre]
          simp only [Bool.false_eq_true, if_false]
          exact htail (i + 1)

theorem containsS_dd_false (l : Chars) (h : ddFree l = true) :
    containsS l ('.' :: '.' :: []) = false := by
  unfold containsS findSub
  rw [findSubAux_dd_none l h 0]
  rfl

/-! ### A filter/count lemma for the directive-stage writes -/

theorem filter_eq_singleton_of_count_one (l : List (Chars × Chars)) (P C : Chars)
    (hmem : (P, C) ∈ l) (huniq : (l.map Prod.fst).count P = 1) :
    l.filter (fun w => w.1 == P) = [(P, C)] := by
  induction l with
  | nil => simp at hmem
  | cons a t ih =>
      by_cases ha : a.1 = P
      · have hnot : P ∉ t.map Prod.fst := by
          rw [List.map_cons, List.count_cons] at huniq
          simp [ha] at huniq
          exact List.count_eq_zero.mp huniq
        have haeq : a = (P, C) := by
          rcases List.mem_cons.mp hmem with h | h
          · exact h.symm
          · exact absurd (List.mem_map.mpr ⟨(P, C), h, rfl⟩) hnot
        subst haeq
        rw [List.filter_cons]
        simp only [beq_self_eq_true, if_true]
        have hnil : t.filter (fun w => w.1 == P) = [] := by
          rw [List.filter_eq_nil_iff]
          intro x hx
          intro hxp
          exact hnot (List.mem_map.mpr ⟨x, hx, by simpa using hxp⟩)
        rw [hnil]
      · have hmem' : (P, C) ∈ t := by
          rcases List.mem_cons.mp hmem with h | h
          · exact absurd (congrArg Prod.fst h.symm) ha
          · exact h
        have huniq' : (t.map Prod.fst).count P = 1 := by
          rw [List.map_cons, List.count_cons] at huniq
          simpa [ha] using huniq
        rw [List.filter_cons]
        have : (a.1 == P) = false := by simpa using ha
        rw [this]
        simp only [Bool.false_eq_true, if_false]
        exact ih hmem' huniq'

end DecideApp

namespace DecideApp

/-- C2 counterexample: a block containing both an HTML tag and a web-server
bootstrap marker.  The claim's rule order (HTML first) predicts
`public/index.html`, but the code checks the server rule first and targets
`server.js`; the two orders give different results on this block. -/
theorem C2_counterexample :
    inferTarget [] [] [] codeHtmlExpress 0 = some ("server.js".data) ∧
    inferTargetClaim [] codeHtmlExpress 0 = "public/index.html".data ∧
    inferTarget [] [] [] codeHtmlExpress 0 ≠
      some (inferTargetClaim [] codeHtmlExpress 0) := by
  exact ⟨by decide, by decide, by decide⟩

/-- C2 amended: the fallback's target inference is an ordered first-match
rule table, but in this order: the caller-supplied path (if truthy) wins
before any content rule; then error-mentions-vercel with a brace in the code
→ `vercel.json`; then server bootstrap → `server.js`; then HTML →
`public/index.html`; then node shebang in the code or `CLI` in the whole
response → `cli.js`; then CSS → `public/style.css`; then package keys →
`package.json`; then generic JavaScript markers → `fix<i>.js` (index omitted
when 0, counted over all blocks); otherwise no target. -/
theorem C2_ordered_rules (errorLC filePath solution code : Chars) (i : Nat)
    (c : Char) (fp : Chars) :
    inferTarget errorLC filePath solution code i =
      firstMatch (sourceRules errorLC filePath solution code i) ∧
    inferTarget errorLC (c :: fp) solution code i = some (c :: fp) := by
  refine ⟨rfl, ?_⟩
  simp [inferTarget]

/-- C3 counterexample: a directive entry whose path is `../../evil.js` is
written verbatim (only trimmed) — the extractor output contains a
parent-directory traversal path, refuting the sanitization claim. -/
theorem C3_counterexample :
    (fixAndCommitApply (fun _ => none) ("err".data) [] solTraversal true).writes.map
        Prod.fst = ["../../evil.js".data] ∧
    containsS ("../../evil.js".data) ('.' :: '.' :: []) = true := by
  exact ⟨by decide, by decide⟩

/-- C3 amended: no sanitization is applied to explicit-directive or
caller-supplied paths (they are used as given, only trimmed, and may be
absolute or contain `..`); only the content-sniffing fallback — absent a
caller-supplied path — always yields a nonempty relative target with no
consecutive-dot segment. -/
theorem C3_heuristic_paths_safe (errorLC filePath solution code : Chars) (i : Nat)
    (t : Chars) (hfp : filePath = [])
    (ht : inferTarget errorLC filePath solution code i = some t) :
    t ≠ [] ∧ t.head? ≠ some '/' ∧ containsS t ('.' :: '.' :: []) = false := by
  subst hfp
  have hfix : fixName i =
      'f' :: 'i' :: 'x' :: ((if 0 < i then natChars i else []) ++ ('.' :: 'j' :: 's' :: [])) := by
    unfold fixName
    rfl
  have hdd : ddFree (fixName i) = true := by
    rw [hfix, ddFree_cons_of 'f' _ (by decide), ddFree_cons_of 'i' _ (by decide),
      ddFree_cons_of 'x' _ (by decide)]
    apply ddFree_append_dotjs
    intro c hc
    split at hc
    · exact natChars_no_dot i c hc
    · simp at hc
  unfold inferTarget at ht
  split_ifs at ht <;>
    first
      | exact absurd (by assumption : (!List.isEmpty ([] : Chars)) = true) (by simp)
      | (rw [Option.some.injEq] at ht
         subst ht
         exact ⟨by decide, by decide, by decide⟩)
      | (rw [Option.some.injEq] at ht
         subst ht
         exact ⟨by rw [hfix]; simp, by rw [hfix]; simp, containsS_dd_false _ hdd⟩)

/-- C3 amended, witness: a generic JavaScript block with no caller path gets
the synthesized name `fix.js`, which is nonempty, relative, and dot-dot
free. -/
theorem C3_heuristic_paths_safe_witness :
    ("fix.js".data ≠ ([] : Chars)) ∧ ("fix.js".data : Chars).head? ≠ some '/' ∧
    containsS ("fix.js".data) ('.' :: '.' :: []) = false :=
  C3_heuristic_paths_safe [] [] [] ("function x".data) 0 ("fix.js".data) rfl (by decide)

/-- C4: when the explicit FILES_TO_MODIFY stage produced a write for path
`P` (and `P` is claimed by exactly one directive entry), the final content at
`P` is that directive's content: a successful directive stage sets `applied`
and the fenced-block and JSON fallbacks are skipped entirely, so no heuristic
can overwrite an explicitly targeted path. -/
theorem C4_explicit_wins (tryJson : Chars → Option Chars)
    (error filePath solution P C : Chars)
    (hmem : (P, C) ∈ directiveWrites solution)
    (huniq : ((directiveWrites solution).map Prod.fst).count P = 1) :
    finalContent (fixAndCommitApply tryJson error filePath solution true) P = some C := by
  have hisEmpty : (directiveWrites solution).isEmpty = false := by
    cases hD : directiveWrites solution
    · rw [hD] at hmem
      simp at hmem
    · rfl
  have hfilter := filter_eq_singleton_of_count_one (directiveWrites solution) P C hmem huniq
  unfold fixAndCommitApply finalContent
  simp [hisEmpty, hfilter]

/-- C4 witness: a solution with one directive entry for `server.js` and one
fenced block that would heuristically also target `server.js`; the final
content for `server.js` is the directive's content. -/
theorem C4_explicit_wins_witness :
    finalContent
      (fixAndCommitApply (fun _ => none) ("err".data) [] solDirective true)
      ("server.js".data) = some ("okcode".data) :=
  C4_explicit_wins (fun _ => none) ("err".data) [] solDirective
    ("server.js".data) ("okcode".data) (by decide) (by decide)

/-- C5 counterexample: three unlabeled fenced blocks, none matching the
HTML/CSS/server/package heuristics and no caller path, yield targets
`fix.js`, `fix1.js`, `fix2.js` — not `fix0.js`, `fix1.js`, `fix2.js`: the
template omits the index when it is 0. -/
theorem C5_counterexample :
    (fixAndCommitApply (fun _ => none) ("build failed".data) [] solFences true).filesChanged
      = ["fix.js".data, "fix1.js".data, "fix2.js".data] ∧
    (fixAndCommitApply (fun _ => none) ("build failed".data) [] solFences true).filesChanged
      ≠ ["fix0.js".data, "fix1.js".data, "fix2.js".data] := by
  exact ⟨by decide, by decide⟩

/-- C5 amended: for a response whose fenced-block scan yields exactly three
blocks, each nonempty after cleaning and matching only the generic-JavaScript
clause (and with no caller path, no directive writes, no vercel keyword in
the error, no `CLI` in the response), extraction writes the cleaned blocks to
`fix.js`, `fix1.js`, `fix2.js` in block order — the zero index is omitted by
the name template, and a block matching no clause at all would get no file. -/
theorem C5_fix_names (tryJson : Chars → Option Chars)
    (error filePath solution b1 b2 b3 : Chars)
    (hfp : filePath = [])
    (hd : directiveWrites solution = [])
    (hfen : containsS solution fence3 = true)
    (hb : extractBlocks solution = [b1, b2, b3])
    (hv : containsS (lowerS error) ("vercel".data) = false)
    (hcli : containsS solution ("CLI".data) = false)
    (h1 : jsOnlyBlock b1 = true) (h2 : jsOnlyBlock b2 = true)
    (h3 : jsOnlyBlock b3 = true) :
    (fixAndCommitApply tryJson error filePath solution true).writes =
      [("fix.js".data, cleanBlock b1), ("fix1.js".data, cleanBlock b2),
       ("fix2.js".data, cleanBlock b3)] := by
  subst hfp
  simp [jsOnlyBlock, Bool.and_eq_true] at h1 h2 h3
  have tgt : ∀ (b : Chars) (i : Nat),
      ¬ cleanBlock b = [] →
      (containsS (cleanBlock b) ("module.exports".data) = true ∨
        containsS (cleanBlock b) ("function".data) = true) →
      containsS (cleanBlock b) ("app.listen".data) = false →
      containsS (cleanBlock b) ("express".data) = false →
      containsS (cleanBlock b) ("<!DOCTYPE html".data) = false →
      containsS (cleanBlock b) ("<html".data) = false →
      containsS (cleanBlock b) ("#!/usr/bin/env node".data) = false →
      containsS (cleanBlock b) ("body \x7b".data) = false →
      containsS (cleanBlock b) (".container \x7b".data) = false →
      containsS (cleanBlock b) ("\x22scripts\x22".data) = false →
      containsS (cleanBlock b) ("\x22dependencies\x22".data) = false →
      inferTarget (lowerS error) [] solution (cleanBlock b) i = some (fixName i) := by
    intro b i hne hjs ha he hdoc hhtml hsheb hbody hcont hscr hdep
    unfold inferTarget
    rcases hjs with hx | hx <;>
      simp [hv, hcli, ha, he, hdoc, hhtml, hsheb, hbody, hcont, hscr, hdep, hx]
  obtain ⟨⟨⟨⟨⟨⟨⟨⟨⟨⟨h1ne, h1js⟩, h1a⟩, h1e⟩, h1doc⟩, h1html⟩, h1sheb⟩, h1body⟩, h1cont⟩, h1scr⟩, h1dep⟩ := h1
  obtain ⟨⟨⟨⟨⟨⟨⟨⟨⟨⟨h2ne, h2js⟩, h2a⟩, h2e⟩, h2doc⟩, h2html⟩, h2sheb⟩, h2body⟩, h2cont⟩, h2scr⟩, h2dep⟩ := h2
  obtain ⟨⟨⟨⟨⟨⟨⟨⟨⟨⟨h3ne, h3js⟩, h3a⟩, h3e⟩, h3doc⟩, h3html⟩, h3sheb⟩, h3body⟩, h3cont⟩, h3scr⟩, h3dep⟩ := h3
  have t1 := tgt b1 0 h1ne h1js h1a h1e h1doc h1html h1sheb h1body h1cont h1scr h1dep
  have t2 := tgt b2 1 h2ne h2js h2a h2e h2doc h2html h2sheb h2body h2cont h2scr h2dep
  have t3 := tgt b3 2 h3ne h3js h3a h3e h3doc h3html h3sheb h3body h3cont h3scr h3dep
  have hie1 : (cleanBlock b1).isEmpty = false := by simpa using h1ne
  have hie2 : (cleanBlock b2).isEmpty = false := by simpa using h2ne
  have hie3 : (cleanBlock b3).isEmpty = false := by simpa using h3ne
  have f0 : fixName 0 = "fix.js".data := by decide
  have f1 : fixName 1 = "fix1.js".data := by decide
  have f2 : fixName 2 = "fix2.js".data := by decide
  have hloop : fencedLoop (lowerS error) [] solution 0 [b1, b2, b3] =
      [("fix.js".data, cleanBlock b1), ("fix1.js".data, cleanBlock b2),
       ("fix2.js".data, cleanBlock b3)] := by
    simp [fencedLoop, t1, t2, t3, hie1, hie2, hie3, f0, f1, f2]
  unfold fixAndCommitApply
  simp [hd, hfen, hb, hloop]

/-- C5 amended, witness: the three `function` blocks of `solFences`. -/
theorem C5_fix_names_witness :
    (fixAndCommitApply (fun _ => none) ("build failed".data) [] solFences true).writes =
      [("fix.js".data, cleanBlock blockA), ("fix1.js".data, cleanBlock blockB),
       ("fix2.js".data, cleanBlock blockC)] :=
  C5_fix_names (fun _ => none) ("build failed".data) [] solFences blockA blockB blockC
    rfl (by decide) (by decide) (by decide) (by decide) (by decide)
    (by decide) (by decide) (by decide)

/-- C9: for a response with no recognizable structure — no fence, no
FILES_TO_MODIFY marker, no brace — the handler extracts nothing, reports
`applied` false, and returns the raw solution text intact, for every
behaviour of the JSON parser; the embedding of the whole pipeline is a total
function, so no model output makes it raise. -/
theorem C9_no_structure (tryJson : Chars → Option Chars) (error filePath solution : Chars)
    (hfence : containsS solution fence3 = false)
    (hmarker : containsS solution markerFTM = false)
    (hbrace : containsS solution ('\x7b' :: []) = false) :
    (fixAndCommitApply tryJson error filePath solution true).writes = [] ∧
    (fixAndCommitApply tryJson error filePath solution true).applied = false ∧
    (fixAndCommitApply tryJson error filePath solution true).solution = solution := by
  have hm : findSub markerFTM solution = none := findSub_eq_none _ _ hmarker
  have hf : findSub fence3 solution = none := findSub_eq_none _ _ hfence
  have hb : findSub ('\x7b' :: []) solution = none := findSub_eq_none _ _ hbrace
  have htag : findSub tagJson solution = none := by
    have he : tagJson = fence3 ++ ("json".data) := by decide
    rw [he]
    exact findSub_append_none _ _ _ hf
  have hw1 : directiveWrites solution = [] := by
    unfold directiveWrites filesSection
    rw [hm]
  have hp1 : jsonPat1 solution = none := by
    unfold jsonPat1 jsonPat1Aux
    rw [htag]
  have hp2 : jsonPat2 solution = none := by
    unfold jsonPat2
    rw [hf]
  have hp3 : jsonPat3 solution = none := by
    unfold jsonPat3
    rw [hb]
  have hjs : jsonStage tryJson (lowerS error) solution = none := by
    unfold jsonStage
    rw [hp1, hp2, hp3]
    rfl
  unfold fixAndCommitApply
  simp [hw1, hfence, hjs]

/-- C9 witness: a plain-prose solution, with an error text that even
mentions json/parse (the JSON-repair gate opens but finds no fragment). -/
theorem C9_no_structure_witness :
    (fixAndCommitApply (fun _ => none) ("json parse error".data) [] solProse true).writes
        = [] ∧
    (fixAndCommitApply (fun _ => none) ("json parse error".data) [] solProse true).applied
        = false ∧
    (fixAndCommitApply (fun _ => none) ("json parse error".data) [] solProse true).solution
        = solProse :=
  C9_no_structure (fun _ => none) ("json parse error".data) [] solProse
    (by decide) (by decide) (by decide)

end DecideApp
